import Mathlib

/-!
Shallow embedding of the rust-technical-assessment repository, covering the
document-ingestion pipeline (`rig-client/src/doc_ingestion`), the RAG vector
store wrapper (`rig-client/src/rag.rs`), and the MCP blockchain services
(`mcp-server/src/services/blockchain.rs`, `mcp-server/src/blockchain_service.rs`).

Machine strings are modelled as Lean `String`; byte buffers that the claims
restrict to valid UTF-8 are modelled by their decoded string.  External
library calls (serde_json parsing, ENS resolution, the embeddings builder,
the RPC provider) are modelled as explicit function parameters.
-/

namespace StrM

/-- Does the second list start with the first? -/
def listStartsWith [DecidableEq α] : List α → List α → Bool
  | [], _ => true
  | _ :: _, [] => false
  | p :: ps, c :: cs => p = c && listStartsWith ps cs

/-- Substring containment on character lists (pattern first). -/
def hasSubstrL (pat : List Char) : List Char → Bool
  | [] => pat.isEmpty
  | c :: cs => listStartsWith pat (c :: cs) || hasSubstrL pat cs

/-- Rust `str::contains(pat)` for a string pattern. -/
def hasSubstr (s pat : String) : Bool :=
  hasSubstrL pat.toList s.toList

/-- Rust `str::contains(c)` for a char pattern. -/
def containsChar (s : String) (c : Char) : Bool :=
  s.toList.contains c

/-- Rust `str::starts_with(c)` for a char pattern. -/
def startsWithChar (s : String) (c : Char) : Bool :=
  match s.toList with
  | [] => false
  | d :: _ => d == c

/-- Rust `str::ends_with(pat)` for a string pattern. -/
def endsWithS (s pat : String) : Bool :=
  listStartsWith pat.toList.reverse s.toList.reverse

/-- ASCII whitespace (the whitespace characters relevant to this
repository's inputs; Rust `char::is_whitespace` coincides with it on
ASCII). -/
def isWS (c : Char) : Bool :=
  c == ' ' || c == '\t' || c == '\n' || c == '\r'

/-- Rust `str::trim` on a character list. -/
def trimL (l : List Char) : List Char :=
  ((l.dropWhile isWS).reverse.dropWhile isWS).reverse

/-- Rust `str::trim`. -/
def trimS (s : String) : String :=
  String.mk (trimL s.toList)

/-- ASCII lowercase of one character (Rust `str::to_lowercase` coincides
with it on ASCII). -/
def charToLower (c : Char) : Char :=
  if 'A' ≤ c ∧ c ≤ 'Z' then Char.ofNat (c.toNat + 32) else c

/-- Rust `str::to_lowercase`. -/
def toLowerS (s : String) : String :=
  String.mk (s.toList.map charToLower)

/-- Split a character list at every occurrence of the separator. -/
def splitChar (sep : Char) : List Char → List (List Char)
  | [] => [[]]
  | c :: cs =>
    match splitChar sep cs with
    | [] => [[]]
    | r :: rs => if c = sep then [] :: r :: rs else (c :: r) :: rs

/-- Strip one trailing carriage return. -/
def stripCRL (l : List Char) : List Char :=
  if l.getLast? = some '\r' then l.dropLast else l

end StrM

namespace DocIngestion

open StrM

/-- Rust `str::lines`: split on newline characters, strip one trailing
carriage return from each piece, and do not yield a final empty piece for a
trailing newline (the empty string yields no lines). -/
def rustLines (s : String) : List String :=
  if s.toList = [] then []
  else
    let parts := splitChar '\n' s.toList
    let parts := if s.toList.getLast? = some '\n' then parts.dropLast else parts
    (parts.map stripCRL).map String.mk

/-- `IngestionError` from `doc_ingestion/mod.rs`. -/
inductive IngestionError
  | FetchError (msg : String)
  | ProcessingError (msg : String)
  | ValidationError (msg : String)
  | StorageError (msg : String)
deriving DecidableEq, Repr

/-- The `thiserror` `#[error(...)]` display strings of `IngestionError`
(the `e.to_string()` rendering used by the pipeline). -/
def IngestionError.render : IngestionError → String
  | .FetchError m => "Failed to fetch document: " ++ m
  | .ProcessingError m => "Failed to process document: " ++ m
  | .ValidationError m => "Document validation failed: " ++ m
  | .StorageError m => "Storage error: " ++ m

/-- `DocumentType` from `doc_ingestion/mod.rs`. -/
inductive DocumentType
  | Solidity
  | Markdown
  | JSON
  | Other (s : String)
deriving DecidableEq, Repr

/-- `DocumentSourceMetadata` from `doc_ingestion/mod.rs`. -/
structure DocumentSourceMetadata where
  source_type : String
  location : String
  version : Option String
deriving DecidableEq, Repr

/-- `DocumentMetadata` from `doc_ingestion/mod.rs`; the two chrono timestamps
are modelled as integer instants. -/
structure DocumentMetadata where
  title : String
  doc_type : DocumentType
  version : Option String
  created_at : Int
  updated_at : Int
  source : DocumentSourceMetadata
  tags : List String
deriving DecidableEq, Repr

/-- `RawDocument` from `doc_ingestion/mod.rs`.  Its `content : Vec<u8>` is
modelled by the decoded string (the claims about processing restrict to
valid UTF-8 content, where `String::from_utf8` succeeds and
`String::from_utf8_lossy` agrees with it). -/
structure RawDocument where
  content : String
  metadata : DocumentMetadata
  checksum : String
deriving DecidableEq, Repr

/-- `RawDocument::validate_solidity`. -/
def validate_solidity (content : String) : Except IngestionError Unit :=
  if ¬ hasSubstr content "pragma solidity" ∧ ¬ hasSubstr content "contract "
      ∧ ¬ hasSubstr content "interface " then
    .error (.ValidationError "Not a valid Solidity file")
  else if ¬ (containsChar content '{' ∧ containsChar content '}') then
    .error (.ValidationError "Invalid Solidity structure")
  else
    .ok ()

/-- `RawDocument::validate_markdown`. -/
def validate_markdown (content : String) : Except IngestionError Unit :=
  let has_structure := containsChar content '#' ∨ containsChar content '-'
      ∨ hasSubstr content "```" = true ∨ containsChar content '*'
      ∨ containsChar content '[' ∨ containsChar content '|'
  if has_structure then .ok ()
  else .error (.ValidationError "Invalid markdown structure")

/-- `RawDocument::validate_json`.  The external `serde_json` parser is the
parameter `serdeParse` (returning the parse error message on failure). -/
def validate_json (serdeParse : String → Except String Unit) (content : String) :
    Except IngestionError Unit :=
  match serdeParse content with
  | .ok _ => .ok ()
  | .error e =>
    if trimS content = "" ∨ (¬ containsChar content '{' ∧ ¬ containsChar content '[') then
      .error (.ValidationError ("Invalid JSON: " ++ e))
    else
      .ok ()

/-- `RawDocument::validate`. -/
def validate (serdeParse : String → Except String Unit) (doc : RawDocument) :
    Except IngestionError Unit :=
  if doc.content = "" then .error (.ValidationError "Empty document")
  else
    match doc.metadata.doc_type with
    | .Solidity => validate_solidity doc.content
    | .Markdown => validate_markdown doc.content
    | .JSON => validate_json serdeParse doc.content
    | .Other _ => .ok ()

/-- One loop iteration of `DefaultDocumentProcessor::chunk_markdown`:
state is (chunks so far, current chunk). -/
def chunkMdStep (acc : List String × String) (line : String) :
    List String × String :=
  if startsWithChar line '#' then
    (if acc.2 = "" then acc.1 else acc.1 ++ [trimS acc.2], line)
  else
    (acc.1, acc.2 ++ "\n" ++ line)

/-- `DefaultDocumentProcessor::chunk_markdown`. -/
def chunk_markdown (content : String) : List String :=
  let st := (rustLines content).foldl chunkMdStep ([], "")
  let chunks := if st.2 = "" then st.1 else st.1 ++ [trimS st.2]
  if chunks = [] then [content] else chunks

/-- One loop iteration of `DefaultDocumentProcessor::chunk_solidity`. -/
def chunkSolStep (chunks : List String) (line : String) : List String :=
  let chunks :=
    if hasSubstr line "contract " ∨ hasSubstr line "interface "
        ∨ hasSubstr line "library " then
      chunks ++ [line]
    else chunks
  if hasSubstr line "function " then chunks ++ [line] else chunks

/-- `DefaultDocumentProcessor::chunk_solidity`. -/
def chunk_solidity (content : String) : List String :=
  let chunks := (rustLines content).foldl chunkSolStep []
  if chunks = [] then [content] else chunks

/-- `ProcessedDocument` from `doc_ingestion/mod.rs`. -/
structure ProcessedDocument where
  content : String
  chunks : List String
  metadata : DocumentMetadata
  checksum : String
deriving DecidableEq, Repr

/-- `DefaultDocumentProcessor::process` (documents restricted to valid UTF-8
content, where the `String::from_utf8` step succeeds). -/
def process (serdeParse : String → Except String Unit) (doc : RawDocument) :
    Except IngestionError ProcessedDocument :=
  match validate serdeParse doc with
  | .error e => .error e
  | .ok _ =>
    let content := doc.content
    let chunks :=
      match doc.metadata.doc_type with
      | .Solidity => chunk_solidity content
      | .Markdown => chunk_markdown content
      | _ => [content]
    .ok ⟨content, chunks, doc.metadata, doc.checksum⟩

/-- The claim's reading of the Markdown chunker, written as a direct
recursion over the line list: a line starting with `#` ends the current
chunk (pushed trimmed if non-empty) and starts a new chunk with that line;
any other line is appended to the current chunk preceded by a newline; the
final chunk is pushed trimmed if non-empty. -/
def mdChunksFrom (current : String) : List String → List String
  | [] => if current = "" then [] else [trimS current]
  | line :: rest =>
    if startsWithChar line '#' then
      (if current = "" then [] else [trimS current]) ++ mdChunksFrom line rest
    else
      mdChunksFrom (current ++ "\n" ++ line) rest

/-- The claim's reading of `chunk_markdown`, with the whole content as the
single chunk when no chunk was produced. -/
def chunkMarkdownClaim (content : String) : List String :=
  let cs := mdChunksFrom "" (rustLines content)
  if cs = [] then [content] else cs

/-- The claim's reading of the Solidity chunker: per line, one chunk for a
type-keyword line, then one chunk for a `function ` line. -/
def solLineChunks (line : String) : List String :=
  (if hasSubstr line "contract " ∨ hasSubstr line "interface "
      ∨ hasSubstr line "library " then [line] else [])
    ++ (if hasSubstr line "function " then [line] else [])

/-- The claim's reading of `chunk_solidity`. -/
def chunkSolidityClaim (content : String) : List String :=
  let cs := (rustLines content).flatMap solLineChunks
  if cs = [] then [content] else cs

/-- A `DocumentSource` as the pipeline observes it: the outcomes of its
`has_updates` and `fetch_documents` calls. -/
structure SourceModel where
  has_updates : Except IngestionError Bool
  fetch_documents : Except IngestionError (List RawDocument)

/-- `IngestionStats` from `doc_ingestion/mod.rs`. -/
structure IngestionStats where
  total_documents : Nat
  successful_documents : Nat
  failed_documents : Nat
  errors : List String
deriving DecidableEq, Repr

/-- `IngestionStats::default()`. -/
def IngestionStats.default : IngestionStats := ⟨0, 0, 0, []⟩

/-- The inner document loop of `DocumentIngestionPipeline::run`: each
document goes through `process_and_store` (abstracted as `pas`); a success
bumps `successful_documents`, a failure bumps `failed_documents` and appends
the rendered error. -/
def processDocs (pas : RawDocument → Except IngestionError Unit)
    (docs : List RawDocument) (stats : IngestionStats) : IngestionStats :=
  docs.foldl
    (fun st doc =>
      match pas doc with
      | .ok _ => { st with successful_documents := st.successful_documents + 1 }
      | .error e =>
        { st with failed_documents := st.failed_documents + 1,
                  errors := st.errors ++ [e.render] })
    stats

/-- The source loop of `DocumentIngestionPipeline::run`, threading the
stats; the `?` operators on `has_updates` and `fetch_documents` propagate
their errors out of `run`. -/
def runFrom (pas : RawDocument → Except IngestionError Unit) :
    List SourceModel → IngestionStats → Except IngestionError IngestionStats
  | [], stats => .ok stats
  | s :: rest, stats =>
    match s.has_updates with
    | .error e => .error e
    | .ok false => runFrom pas rest stats
    | .ok true =>
      match s.fetch_documents with
      | .error e => .error e
      | .ok docs =>
        runFrom pas rest
          (processDocs pas docs
            { stats with total_documents := stats.total_documents + docs.length })

/-- `DocumentIngestionPipeline::run`. -/
def run (sources : List SourceModel)
    (pas : RawDocument → Except IngestionError Unit) :
    Except IngestionError IngestionStats :=
  runFrom pas sources IngestionStats.default

/-- `InMemoryDocStore` from `doc_ingestion/store.rs`: a `HashMap` keyed by
string, modelled as its lookup function (the `RwLock` is irrelevant in this
single-threaded embedding and its poisoning errors cannot occur). -/
def DocStoreMap : Type := String → Option ProcessedDocument

/-- `InMemoryDocStore::store_document`: inserts under `doc.metadata.title`. -/
def store_document (m : DocStoreMap) (doc : ProcessedDocument) : DocStoreMap :=
  fun k => if k = doc.metadata.title then some doc else m k

/-- `InMemoryDocStore::get_document`. -/
def get_document (m : DocStoreMap) (key : String) : Option ProcessedDocument :=
  m key

/-- `InMemoryDocStore::delete_document`. -/
def delete_document (m : DocStoreMap) (key : String) : DocStoreMap :=
  fun k => if k = key then none else m k

/-- The empty store (`InMemoryDocStore::default()`). -/
def emptyDocStore : DocStoreMap := fun _ => none

end DocIngestion

namespace Rag

/-- `DocumentType` from `rig-client/src/rag.rs`. -/
inductive UniDocType
  | Documentation
  | ContractCode
  | Interface
  | Guide
  | Example
  | FAQ
deriving DecidableEq, Repr

/-- `DocumentMetadata` from `rig-client/src/rag.rs` (timestamp as an
integer instant). -/
structure UniDocMetadata where
  source_path : Option String
  version : Option String
  tags : List String
  created_at : Int
deriving DecidableEq, Repr

/-- `UniswapDocument` from `rig-client/src/rag.rs`. -/
structure UniswapDocument where
  id : String
  title : String
  doc_type : UniDocType
  content : String
  metadata : UniDocMetadata
deriving DecidableEq, Repr

/-- The mutable state of `UniswapRagSystem` touched by indexing: the
in-memory vector store (entries keyed by the id function `|doc| doc.id`,
as built by `from_documents_with_id_f`) and `document_count`.  `V` is the
embedding-vector type produced by the external fastembed model. -/
structure RagState (V : Type) where
  index : List (String × (UniswapDocument × V))
  document_count : Nat

/-- `UniswapRagSystem::index_documents`.  The external
`EmbeddingsBuilder::documents(..)?.build().await?` pipeline is the `build`
parameter; both of its failure points surface as the returned error, and
`self` is only mutated after both succeed.  Returns (call result, state
after the call). -/
def index_documents {V : Type} (st : RagState V)
    (documents : List UniswapDocument)
    (build : List UniswapDocument → Except String (List (UniswapDocument × V))) :
    Except String Unit × RagState V :=
  match build documents with
  | .error e => (.error e, st)
  | .ok embeddings =>
    (.ok (),
      { index := embeddings.map (fun de => (de.1.id, de)),
        document_count := documents.length })

/-- `UniswapRagSystem::document_count`. -/
def document_count {V : Type} (st : RagState V) : Nat :=
  st.document_count

end Rag

namespace Mcp

open StrM

/-- `rmcp::ErrorData` (`McpError`) restricted to the two constructors this
repository uses. -/
inductive McpErrorModel
  | invalid_params (msg : String)
  | internal_error (msg : String)
deriving DecidableEq, Repr

/-- Hex digit test, as accepted by `alloy_primitives::Address::from_str`. -/
def isHexDigitChar (c : Char) : Bool :=
  c.isDigit || ('a' ≤ c && c ≤ 'f') || ('A' ≤ c && c ≤ 'F')

/-- Value of a hex digit. -/
def hexDigitVal (c : Char) : Nat :=
  if c.isDigit then c.toNat - 48
  else if 'a' ≤ c && c ≤ 'f' then c.toNat - 87
  else c.toNat - 55

/-- `alloy_primitives::Address::from_str`: an optional `0x` prefixed string
of exactly 40 hex digits, decoded to the 20-byte (thus `< 2^160`) value. -/
def addressFromStr (s : String) : Option Nat :=
  let t := if listStartsWith ['0', 'x'] s.toList then s.toList.drop 2 else s.toList
  if t.length = 40 ∧ t.all isHexDigitChar then
    some (t.foldl (fun n c => n * 16 + hexDigitVal c) 0)
  else none

/-- Lowercase hex digit character. -/
def hexCharOf (n : Nat) : Char :=
  if n < 10 then Char.ofNat (48 + n) else Char.ofNat (87 + n)

/-- The `format!("{:?}", address)` rendering of an alloy address:
`0x` followed by 40 lowercase hex digits. -/
def fmtAddrDebug (a : Nat) : String :=
  "0x" ++ String.mk ((List.range 40).map (fun i => hexCharOf (a / 16 ^ (39 - i) % 16)))

/-- `AccountInfo` from `mcp-server/src/services/blockchain.rs`. -/
structure AccountInfo where
  index : Nat
  address : String
  private_key : Option String
deriving DecidableEq, Repr

/-- `ValidatedAddress` from `mcp-server/src/services/blockchain.rs`. -/
structure ValidatedAddress where
  address : String
  resolved_address : Nat
  address_type : String
deriving DecidableEq, Repr

/-- The fields of `BlockchainService` that `validate_recipient_address`
reads. -/
structure ServiceEnv where
  alice_address : Nat
  bob_address : Nat
  anvil_accounts : List AccountInfo

/-- The `known_accounts` array literal in `validate_recipient_address`. -/
def knownAccounts : List (String × Nat) :=
  [("account0", 0), ("account1", 1), ("account2", 2), ("account3", 3),
   ("account4", 4), ("account5", 5), ("account6", 6), ("account7", 7),
   ("account8", 8), ("account9", 9)]

/-- The numbered-accounts loop of `validate_recipient_address`: an entry is
taken only when the name matches, the anvil account at that index exists,
and its address string parses; otherwise the loop continues. -/
def tryKnownAccounts (svc : ServiceEnv) (lower : String) :
    List (String × Nat) → Option ValidatedAddress
  | [] => none
  | (name, idx) :: rest =>
    if lower = name then
      match svc.anvil_accounts.get? idx with
      | some acc =>
        match addressFromStr acc.address with
        | some a => some ⟨acc.address, a, "Anvil Account " ++ toString idx⟩
        | none => tryKnownAccounts svc lower rest
      | none => tryKnownAccounts svc lower rest
    else tryKnownAccounts svc lower rest

/-- The final validation-error message of `validate_recipient_address`. -/
def invalidRecipientMsg (trimmed : String) : String :=
  "Invalid recipient address: '" ++ trimmed ++ "'\n\n" ++
  "Valid formats:\n" ++
  "- Ethereum address: 0x742d35Cc6634C0532925a3b8D8C9C0C4e8C6C85b\n" ++
  "- ENS name: vitalik.eth\n" ++
  "- Known accounts: alice, bob, account0, account1, etc.\n\n" ++
  "Please provide a valid recipient address."

/-- `BlockchainService::validate_recipient_address` from
`mcp-server/src/services/blockchain.rs`.  The external ENS resolution
(`NameOrAddress::resolve` against the provider) is the `resolve`
parameter. -/
def validate_recipient_address (svc : ServiceEnv)
    (resolve : String → Except String Nat) (address_input : String) :
    Except McpErrorModel ValidatedAddress :=
  let trimmed := trimS address_input
  match addressFromStr trimmed with
  | some a => .ok ⟨trimmed, a, "Ethereum Address"⟩
  | none =>
    if endsWithS trimmed ".eth" ∨ containsChar trimmed '.' then
      match resolve trimmed with
      | .ok a => .ok ⟨trimmed, a, "ENS Name (resolved)"⟩
      | .error e =>
        .error (.invalid_params
          ("Failed to resolve ENS name '" ++ trimmed ++ "': " ++ e))
    else
      let lower := toLowerS trimmed
      if lower = "alice" then
        .ok ⟨fmtAddrDebug svc.alice_address, svc.alice_address,
             "Alice (Account 0 - Default Sender)"⟩
      else if lower = "bob" then
        .ok ⟨fmtAddrDebug svc.bob_address, svc.bob_address,
             "Bob (Account 1 - Default Recipient)"⟩
      else
        match tryKnownAccounts svc lower knownAccounts with
        | some v => .ok v
        | none => .error (.invalid_params (invalidRecipientMsg trimmed))

/-- `is_contract_deployed`, deployment decision: `!code.is_empty() && code
!= "0x"` on the string returned by `Cast::code`. -/
def is_deployed (code : String) : Bool :=
  !(code.toList.isEmpty) && !(code == "0x")

/-- The `Status:` field rendered by `is_contract_deployed`. -/
def deployedStatusStr (code : String) : String :=
  if is_deployed code then "DEPLOYED" else "NOT DEPLOYED"

/-- The `Code Length:` byte count rendered by `is_contract_deployed`:
`if code.len() > 2 { (code.len() - 2) / 2 } else { 0 }` (the code string is
ASCII hex, so Rust byte length and character length agree). -/
def codeLenBytes (code : String) : Nat :=
  if code.length > 2 then (code.length - 2) / 2 else 0

/-- Decimal value of a digit list (most significant first). -/
def digitsValL (l : List Char) : Nat :=
  l.foldl (fun n c => n * 10 + (c.toNat - 48)) 0

/-- `amount.replace(".", "")`: removal of every `.` character. -/
def removeDots (s : String) : String :=
  String.mk (s.toList.filter (fun c => !(c == '.')))

/-- `U256::from_str` on a decimal string (the branch reached for digit-only
strings: no `0x`-style prefix is present once dots are removed): parses the
digits and fails on overflow past `2^256 - 1` or on any non-digit. -/
def parseU256Dec (s : String) : Option Nat :=
  if s.toList ≠ [] ∧ s.toList.all Char.isDigit then
    let v := digitsValL s.toList
    if v < 2 ^ 256 then some v else none
  else none

/-- The wei amount computed by `send_eth`:
`U256::from_str(&format!("{}000000000000000000", amount.replace(".", "")))`. -/
def send_eth_amount_wei (amount : String) : Option Nat :=
  parseU256Dec (removeDots amount ++ "000000000000000000")

/-- The response text of the `balance` tool in
`mcp-server/src/services/blockchain.rs`.  `resolvedDisplay` is the `{}`
rendering of the resolved address and `ethFormatted` the `{:.6}` rendering
of the floating-point ETH conversion (floating point is kept opaque; the
wei figure is what the claims inspect). -/
def services_balance_text (who resolvedDisplay ethFormatted : String)
    (balanceWei : Nat) : String :=
  "ETH Balance Query:\nAccount: " ++ who ++ " (resolved to " ++
    resolvedDisplay ++ ")\nBalance: " ++ ethFormatted ++ " ETH (" ++
    Nat.repr balanceWei ++ " wei)"

/-- The `balance` tool of `mcp-server/src/services/blockchain.rs`:
resolution failure maps to `invalid_params`, provider failure to
`internal_error`, success to the formatted response text. -/
def services_balance_tool (who : String) (resolveRes : Except String Nat)
    (get_balance : Nat → Except String Nat) (resolvedDisplay : Nat → String)
    (ethFmt : Nat → String) : Except McpErrorModel String :=
  match resolveRes with
  | .error e =>
    .error (.invalid_params ("Failed to resolve address '" ++ who ++ "': " ++ e))
  | .ok addr =>
    match get_balance addr with
    | .error e => .error (.internal_error ("Failed to get balance: " ++ e))
    | .ok bal =>
      .ok (services_balance_text who (resolvedDisplay addr) (ethFmt bal) bal)

/-- Outcome of running a piece of Rust that may panic. -/
inductive RustOutcome (α : Type)
  | panics (msg : String)
  | returns (v : α)
deriving DecidableEq, Repr

/-- `Result::unwrap()`: returns the value or panics. -/
def unwrapResult {α : Type} : Except String α → RustOutcome α
  | .ok a => .returns a
  | .error e => .panics ("called `Result::unwrap()` on an `Err` value: " ++ e)

/-- The earlier `balance` tool of `mcp-server/src/blockchain_service.rs`:
both the address resolution and `get_balance` results are `unwrap()`ed, and
the success content is `balance.to_string()`. -/
def legacy_balance_tool (resolveRes : Except String Nat)
    (get_balance : Nat → Except String Nat) :
    RustOutcome (Except McpErrorModel String) :=
  match unwrapResult resolveRes with
  | .panics m => .panics m
  | .returns addr =>
    match unwrapResult (get_balance addr) with
    | .panics m => .panics m
    | .returns bal => .returns (.ok (Nat.repr bal))

/-- The response content of the legacy `balance` tool on success. -/
def legacy_balance_text (balanceWei : Nat) : String :=
  Nat.repr balanceWei

end Mcp

namespace Fixtures

/-- A serde_json stand-in that accepts everything (unused on Markdown). -/
def cSerde : String → Except String Unit := fun _ => Except.ok ()

/-- Concrete metadata for test documents. -/
def cMeta : DocIngestion.DocumentMetadata :=
  ⟨"T", DocIngestion.DocumentType.Markdown, none, 0, 0, ⟨"git", "loc", none⟩, []⟩

/-- A concrete valid Markdown document. -/
def cMdDoc : DocIngestion.RawDocument := ⟨"# h\nbody", cMeta, "sum"⟩

/-- A concrete document whose processing fails (empty content). -/
def cDocBad : DocIngestion.RawDocument := ⟨"", cMeta, "bad"⟩

/-- A concrete `process_and_store` outcome map: fails on `cDocBad`. -/
def cPas (doc : DocIngestion.RawDocument) :
    Except DocIngestion.IngestionError Unit :=
  if doc.checksum = "sum" then Except.ok ()
  else Except.error (DocIngestion.IngestionError.ProcessingError "boom")

/-- A concrete single-source pipeline configuration. -/
def cSources : List DocIngestion.SourceModel :=
  [⟨Except.ok true, Except.ok [cMdDoc, cDocBad]⟩]

/-- The stats the concrete pipeline run produces. -/
def cRunStats : DocIngestion.IngestionStats :=
  ⟨2, 1, 1, ["Failed to process document: boom"]⟩

/-- A concrete processed document (checksum differs from title). -/
def cProcA : DocIngestion.ProcessedDocument := ⟨"x", ["x"], cMeta, "sumA"⟩

/-- A second processed document with the same title. -/
def cProcB : DocIngestion.ProcessedDocument := ⟨"y", ["y"], cMeta, "sumB"⟩

/-- A concrete Uniswap document. -/
def cUniDoc : Rag.UniswapDocument :=
  ⟨"id1", "t", Rag.UniDocType.Documentation, "c", ⟨none, none, [], 0⟩⟩

/-- A concrete embeddings builder that succeeds and pairs each document
with a vector. -/
def cBuild : List Rag.UniswapDocument →
    Except String (List (Rag.UniswapDocument × List Int)) :=
  fun ds => Except.ok (ds.map (fun d => (d, [1])))

/-- A concrete embeddings builder that fails. -/
def cBuildFail : List Rag.UniswapDocument →
    Except String (List (Rag.UniswapDocument × List Int)) :=
  fun _ => Except.error "embedding backend down"

/-- A concrete RAG state with a previously indexed document. -/
def cRagPrev : Rag.RagState (List Int) := ⟨[("old", (cUniDoc, [2]))], 5⟩

/-- A concrete service environment. -/
def cSvc : Mcp.ServiceEnv :=
  ⟨1, 2, [⟨0, "0xaaaaaaaaaaaaaaaaaaaaaaaaaaaaaaaaaaaaaaaa", none⟩]⟩

/-- A concrete ENS resolver that always fails. -/
def cResolve : String → Except String Nat := fun _ => Except.error "name not found"

end Fixtures

/-! ## Helper lemmas -/

namespace DocIngestion

theorem mdChunks_foldl (lines : List String) :
    ∀ (chunks : List String) (current : String),
      (if (lines.foldl chunkMdStep (chunks, current)).2 = ""
        then (lines.foldl chunkMdStep (chunks, current)).1
        else (lines.foldl chunkMdStep (chunks, current)).1
          ++ [StrM.trimS (lines.foldl chunkMdStep (chunks, current)).2])
      = chunks ++ mdChunksFrom current lines := by
  induction lines with
  | nil =>
    intro chunks current
    by_cases hc : current = "" <;> simp [mdChunksFrom, hc]
  | cons line rest ih =>
    intro chunks current
    by_cases h : StrM.startsWithChar line '#' = true
    · have hstep : chunkMdStep (chunks, current) line
          = ((if current = "" then chunks else chunks ++ [StrM.trimS current]), line) := by
        simp [chunkMdStep, h]
      simp only [List.foldl_cons, hstep, ih]
      by_cases hc : current = "" <;> simp [mdChunksFrom, h, hc]
    · have hstep : chunkMdStep (chunks, current) line
          = (chunks, current ++ "\n" ++ line) := by
        simp [chunkMdStep, h]
      simp only [List.foldl_cons, hstep, ih]
      simp [mdChunksFrom, h]

theorem chunk_markdown_eq_claimed (content : String) :
    chunk_markdown content = chunkMarkdownClaim content := by
  have h := mdChunks_foldl (rustLines content) [] ""
  simp only [List.nil_append] at h
  simp only [chunk_markdown, chunkMarkdownClaim]
  rw [h]

theorem chunk_markdown_ne_nil (content : String) :
    chunk_markdown content ≠ [] := by
  simp only [chunk_markdown]
  split <;> split <;> simp_all

theorem chunkSolStep_eq (chunks : List String) (line : String) :
    chunkSolStep chunks line = chunks ++ solLineChunks line := by
  simp only [chunkSolStep, solLineChunks]
  by_cases h1 : (StrM.hasSubstr line "contract " = true
      ∨ StrM.hasSubstr line "interface " = true
      ∨ StrM.hasSubstr line "library " = true)
      <;> by_cases h2 : StrM.hasSubstr line "function " = true
      <;> simp [h1, h2]

theorem sol_foldl (lines : List String) :
    ∀ chunks, lines.foldl chunkSolStep chunks
      = chunks ++ lines.flatMap solLineChunks := by
  induction lines with
  | nil => simp
  | cons l rest ih =>
    intro chunks
    simp [List.foldl_cons, chunkSolStep_eq, ih]

theorem chunk_solidity_ne_nil (content : String) :
    chunk_solidity content ≠ [] := by
  simp only [chunk_solidity]
  split <;> simp_all

end DocIngestion

/-! ## Claim theorems for the chunkers -/

/-- C1: for every Markdown document that passes validation (with valid
UTF-8 content, modelled by its decoded string), `process` succeeds and its
chunks are exactly the header-delimited chunking described by the claim
(header lines close the current chunk, which is pushed trimmed when
non-empty, and start a new one; other lines are appended preceded by a
newline; the final chunk is pushed trimmed when non-empty), and the chunk
list is never empty, the whole content being the single chunk when no chunk
was produced. -/
theorem process_markdown_chunks_claim
    (serdeParse : String → Except String Unit) (doc : DocIngestion.RawDocument)
    (hty : doc.metadata.doc_type = DocIngestion.DocumentType.Markdown)
    (hval : DocIngestion.validate serdeParse doc = Except.ok ()) :
    DocIngestion.process serdeParse doc =
      Except.ok ⟨doc.content, DocIngestion.chunk_markdown doc.content,
                 doc.metadata, doc.checksum⟩
    ∧ DocIngestion.chunk_markdown doc.content
      = DocIngestion.chunkMarkdownClaim doc.content
    ∧ DocIngestion.chunk_markdown doc.content ≠ [] := by
  refine ⟨?_, DocIngestion.chunk_markdown_eq_claimed _,
    DocIngestion.chunk_markdown_ne_nil _⟩
  simp [DocIngestion.process, hval, hty]

/-- Witness for C1 at a concrete validated Markdown document. -/
theorem process_markdown_chunks_claim_witness :
    DocIngestion.process Fixtures.cSerde Fixtures.cMdDoc =
      Except.ok ⟨Fixtures.cMdDoc.content,
                 DocIngestion.chunk_markdown Fixtures.cMdDoc.content,
                 Fixtures.cMdDoc.metadata, Fixtures.cMdDoc.checksum⟩
    ∧ DocIngestion.chunk_markdown Fixtures.cMdDoc.content
      = DocIngestion.chunkMarkdownClaim Fixtures.cMdDoc.content
    ∧ DocIngestion.chunk_markdown Fixtures.cMdDoc.content ≠ [] :=
  process_markdown_chunks_claim Fixtures.cSerde Fixtures.cMdDoc rfl (by rfl)

/-- C2: `chunk_solidity` returns, in line order, one chunk per
type-keyword line (`contract `, `interface `, `library `) and one chunk per
`function ` line, a line matching both being emitted twice with the
type-keyword occurrence first; the whole content is the single chunk when
no line matches, so the result is never empty. -/
theorem chunk_solidity_claim (content : String) :
    DocIngestion.chunk_solidity content
      = DocIngestion.chunkSolidityClaim content
    ∧ DocIngestion.chunk_solidity content ≠ [] := by
  refine ⟨?_, DocIngestion.chunk_solidity_ne_nil _⟩
  simp only [DocIngestion.chunk_solidity, DocIngestion.chunkSolidityClaim,
    DocIngestion.sol_foldl, List.nil_append]

/-! ## Pipeline lemmas -/

namespace DocIngestion

theorem processDocs_spec (pas : RawDocument → Except IngestionError Unit)
    (docs : List RawDocument) :
    ∀ stats : IngestionStats,
      (processDocs pas docs stats).total_documents = stats.total_documents
    ∧ (processDocs pas docs stats).successful_documents
        + (processDocs pas docs stats).failed_documents
      = stats.successful_documents + stats.failed_documents + docs.length
    ∧ (processDocs pas docs stats).errors.length + stats.failed_documents
      = stats.errors.length + (processDocs pas docs stats).failed_documents := by
  induction docs with
  | nil => intro stats; simp [processDocs]
  | cons d rest ih =>
    intro stats
    cases h : pas d with
    | ok u =>
      have key : processDocs pas (d :: rest) stats
          = processDocs pas rest
              { stats with successful_documents := stats.successful_documents + 1 } := by
        simp [processDocs, List.foldl_cons, h]
      obtain ⟨h1, h2, h3⟩ :=
        ih { stats with successful_documents := stats.successful_documents + 1 }
      rw [key]
      refine ⟨h1, ?_, ?_⟩ <;> simp at h2 h3 ⊢ <;> omega
    | error e =>
      have key : processDocs pas (d :: rest) stats
          = processDocs pas rest
              { stats with failed_documents := stats.failed_documents + 1,
                           errors := stats.errors ++ [e.render] } := by
        simp [processDocs, List.foldl_cons, h]
      obtain ⟨h1, h2, h3⟩ :=
        ih { stats with failed_documents := stats.failed_documents + 1,
                        errors := stats.errors ++ [e.render] }
      rw [key]
      refine ⟨h1, ?_, ?_⟩ <;> simp at h2 h3 ⊢ <;> omega

theorem runFrom_ok_inv (pas : RawDocument → Except IngestionError Unit) :
    ∀ (sources : List SourceModel) (stats stats' : IngestionStats),
      stats.total_documents = stats.successful_documents + stats.failed_documents →
      stats.errors.length = stats.failed_documents →
      runFrom pas sources stats = Except.ok stats' →
      stats'.total_documents = stats'.successful_documents + stats'.failed_documents
      ∧ stats'.errors.length = stats'.failed_documents := by
  intro sources
  induction sources with
  | nil =>
    intro stats stats' h1 h2 h
    simp only [runFrom] at h
    cases h
    exact ⟨h1, h2⟩
  | cons s rest ih =>
    intro stats stats' h1 h2 h
    simp only [runFrom] at h
    split at h
    · exact absurd h (by simp)
    · exact ih stats stats' h1 h2 h
    · split at h
      · exact absurd h (by simp)
      · next docs hfetch =>
        set stats0 : IngestionStats :=
          { stats with total_documents := stats.total_documents + docs.length } with hs0
        obtain ⟨p1, p2, p3⟩ := processDocs_spec pas docs stats0
        refine ih (processDocs pas docs stats0) stats' ?_ ?_ h
        · have e1 : stats0.total_documents
              = stats.total_documents + docs.length := by rw [hs0]
          have e2 : stats0.successful_documents = stats.successful_documents := by rw [hs0]
          have e3 : stats0.failed_documents = stats.failed_documents := by rw [hs0]
          rw [p1]
          omega
        · have e3 : stats0.failed_documents = stats.failed_documents := by rw [hs0]
          have e4 : stats0.errors.length = stats.errors.length := by rw [hs0]
          have e2 : stats0.successful_documents = stats.successful_documents := by rw [hs0]
          omega

theorem runFrom_error_src (pas : RawDocument → Except IngestionError Unit) :
    ∀ (sources : List SourceModel) (stats : IngestionStats) (e : IngestionError),
      runFrom pas sources stats = Except.error e →
      ∃ s ∈ sources, s.has_updates = Except.error e
        ∨ (s.has_updates = Except.ok true ∧ s.fetch_documents = Except.error e) := by
  intro sources
  induction sources with
  | nil => intro stats e h; simp [runFrom] at h
  | cons s rest ih =>
    intro stats e h
    simp only [runFrom] at h
    split at h
    · next e0 hu =>
      cases h
      exact ⟨s, List.mem_cons_self s rest, Or.inl hu⟩
    · next hu =>
      obtain ⟨t, ht, hcase⟩ := ih stats e h
      exact ⟨t, List.mem_cons_of_mem s ht, hcase⟩
    · next hu =>
      split at h
      · next e0 hf =>
        cases h
        exact ⟨s, List.mem_cons_self s rest, Or.inr ⟨hu, hf⟩⟩
      · next docs hf =>
        obtain ⟨t, ht, hcase⟩ := ih _ e h
        exact ⟨t, List.mem_cons_of_mem s ht, hcase⟩

end DocIngestion

/-- C3: `DocumentIngestionPipeline::run` contains per-document failures:
a failing document adds the rendered error to `stats.errors` and bumps
`failed_documents` while the run continues, so an `Ok(stats)` result always
satisfies `total_documents = successful_documents + failed_documents` with
exactly `failed_documents` recorded errors, and `run` itself returns `Err`
only when a source's `has_updates` or `fetch_documents` call fails. -/
theorem pipeline_run_stats_claim
    (sources : List DocIngestion.SourceModel)
    (pas : DocIngestion.RawDocument → Except DocIngestion.IngestionError Unit) :
    (∀ stats, DocIngestion.run sources pas = Except.ok stats →
        stats.total_documents
          = stats.successful_documents + stats.failed_documents
      ∧ stats.errors.length = stats.failed_documents)
    ∧ (∀ e, DocIngestion.run sources pas = Except.error e →
        ∃ s ∈ sources, s.has_updates = Except.error e
          ∨ (s.has_updates = Except.ok true
              ∧ s.fetch_documents = Except.error e))
    ∧ (∀ (stats : DocIngestion.IngestionStats) (doc : DocIngestion.RawDocument)
        (e : DocIngestion.IngestionError), pas doc = Except.error e →
        DocIngestion.processDocs pas [doc] stats =
          { stats with failed_documents := stats.failed_documents + 1,
                       errors := stats.errors ++ [e.render] }) := by
  refine ⟨?_, ?_, ?_⟩
  · intro stats h
    exact DocIngestion.runFrom_ok_inv pas sources DocIngestion.IngestionStats.default
      stats rfl rfl h
  · intro e h
    exact DocIngestion.runFrom_error_src pas sources DocIngestion.IngestionStats.default e h
  · intro stats doc e h
    simp [DocIngestion.processDocs, h]

/-- Witness for C3 at a concrete one-source pipeline with one succeeding
and one failing document. -/
theorem pipeline_run_stats_claim_witness :
    Fixtures.cRunStats.total_documents
      = Fixtures.cRunStats.successful_documents + Fixtures.cRunStats.failed_documents
    ∧ Fixtures.cRunStats.errors.length = Fixtures.cRunStats.failed_documents :=
  (pipeline_run_stats_claim Fixtures.cSources Fixtures.cPas).1
    Fixtures.cRunStats (by rfl)

/-- C4: treating the code string returned by `Cast::code` as an input, the
`is_contract_deployed` tool reports status `DEPLOYED` exactly when that
string is non-empty and not `"0x"`, and reports `(len - 2) / 2` code bytes
when the string is longer than 2 characters and `0` bytes otherwise. -/
theorem is_contract_deployed_claim (code : String) :
    (Mcp.deployedStatusStr code = "DEPLOYED" ↔ (code ≠ "" ∧ code ≠ "0x"))
    ∧ (2 < code.length → Mcp.codeLenBytes code = (code.length - 2) / 2)
    ∧ (code.length ≤ 2 → Mcp.codeLenBytes code = 0) := by
  refine ⟨?_, ?_, ?_⟩
  · unfold Mcp.deployedStatusStr Mcp.is_deployed
    constructor
    · intro h
      by_cases h1 : code = ""
      · subst h1; simp at h
      · by_cases h2 : code = "0x"
        · subst h2; simp at h
        · exact ⟨h1, h2⟩
    · rintro ⟨h1, h2⟩
      have he : code.toList.isEmpty = false := by
        rw [List.isEmpty_eq_false_iff_exists_mem]
        rcases code with ⟨l⟩
        cases l with
        | nil => exact absurd rfl h1
        | cons c cs => exact ⟨c, List.mem_cons_self c cs⟩
      have hb : (code == "0x") = false := by
        rw [beq_eq_false_iff_ne]
        exact h2
      rw [he, hb]
      rfl
  · intro h
    simp [Mcp.codeLenBytes, h]
  · intro h
    simp [Mcp.codeLenBytes]
    omega

/-- Witness for C4 at the concrete code strings `"0x6080"` and `"0x"`. -/
theorem is_contract_deployed_claim_witness :
    Mcp.deployedStatusStr "0x6080" = "DEPLOYED"
    ∧ Mcp.codeLenBytes "0x6080" = 2
    ∧ Mcp.codeLenBytes "0x" = 0 :=
  ⟨(is_contract_deployed_claim "0x6080").1.mpr (by decide),
   by
    have h := (is_contract_deployed_claim "0x6080").2.1 (by decide)
    simpa using h,
   (is_contract_deployed_claim "0x").2.2 (by decide)⟩

/-- C6: `InMemoryDocStore` keys documents by `metadata.title`, not by the
checksum named in the `DocumentStore` trait: after `store_document doc`,
lookup by the document's title returns it; lookup by its checksum returns
`None` whenever the checksum differs from the stored title and is not a
previously stored title; a second document with the same title overwrites
the first; and a deleted title reads back as `None`. -/
theorem in_memory_doc_store_title_key_claim
    (m : DocIngestion.DocStoreMap) (doc d1 d2 : DocIngestion.ProcessedDocument)
    (t : String) :
    DocIngestion.get_document (DocIngestion.store_document m doc)
      doc.metadata.title = some doc
    ∧ (doc.checksum ≠ doc.metadata.title →
        DocIngestion.get_document m doc.checksum = none →
        DocIngestion.get_document (DocIngestion.store_document m doc)
          doc.checksum = none)
    ∧ (d1.metadata.title = d2.metadata.title →
        DocIngestion.get_document
          (DocIngestion.store_document (DocIngestion.store_document m d1) d2)
          d1.metadata.title = some d2)
    ∧ DocIngestion.get_document (DocIngestion.delete_document m t) t = none := by
  refine ⟨?_, ?_, ?_, ?_⟩
  · simp [DocIngestion.get_document, DocIngestion.store_document]
  · intro hne hnone
    simpa [DocIngestion.get_document, DocIngestion.store_document, hne]
      using hnone
  · intro htitle
    simp [DocIngestion.get_document, DocIngestion.store_document, htitle]
  · simp [DocIngestion.get_document, DocIngestion.delete_document]

/-- Witness for C6 at concrete documents sharing a title, with checksums
distinct from titles. -/
theorem in_memory_doc_store_title_key_claim_witness :
    DocIngestion.get_document
      (DocIngestion.store_document DocIngestion.emptyDocStore Fixtures.cProcA)
      Fixtures.cProcA.metadata.title = some Fixtures.cProcA
    ∧ DocIngestion.get_document
        (DocIngestion.store_document DocIngestion.emptyDocStore Fixtures.cProcA)
        Fixtures.cProcA.checksum = none
    ∧ DocIngestion.get_document
        (DocIngestion.store_document
          (DocIngestion.store_document DocIngestion.emptyDocStore Fixtures.cProcA)
          Fixtures.cProcB)
        Fixtures.cProcA.metadata.title = some Fixtures.cProcB
    ∧ DocIngestion.get_document
        (DocIngestion.delete_document DocIngestion.emptyDocStore "T") "T" = none := by
  have h := in_memory_doc_store_title_key_claim DocIngestion.emptyDocStore
    Fixtures.cProcA Fixtures.cProcA Fixtures.cProcB "T"
  exact ⟨h.1, h.2.1 (by decide) rfl, h.2.2.1 rfl, h.2.2.2⟩

/-- C7: `UniswapRagSystem::index_documents` replaces the vector store: on
success the state is rebuilt from the new embeddings alone (so it does not
depend on the previous state), `document_count` becomes the number of
documents just indexed, the new index keys are exactly the ids of the new
documents, and a failure of embedding construction leaves the state
unchanged. -/
theorem rag_index_documents_replaces_claim {V : Type}
    (st ot : Rag.RagState V) (docs : List Rag.UniswapDocument)
    (build : List Rag.UniswapDocument →
      Except String (List (Rag.UniswapDocument × V))) :
    (∀ u st', Rag.index_documents st docs build = (Except.ok u, st') →
        Rag.document_count st' = docs.length
      ∧ Rag.index_documents ot docs build = (Except.ok u, st'))
    ∧ (∀ u st' es, Rag.index_documents st docs build = (Except.ok u, st') →
        build docs = Except.ok es → es.map Prod.fst = docs →
        st'.index.map Prod.fst = docs.map (fun d => d.id))
    ∧ (∀ e st', Rag.index_documents st docs build = (Except.error e, st') →
        st' = st) := by
  refine ⟨?_, ?_, ?_⟩
  · intro u st' h
    cases hb : build docs with
    | error e => simp [Rag.index_documents, hb] at h
    | ok es =>
      simp only [Rag.index_documents, hb] at h
      obtain ⟨hu, hst⟩ := Prod.mk.injEq .. ▸ h
      subst hst
      exact ⟨rfl, by simp [Rag.index_documents, hb, hu]⟩
  · intro u st' es h hb hes
    simp only [Rag.index_documents, hb] at h
    obtain ⟨hu, hst⟩ := Prod.mk.injEq .. ▸ h
    subst hst
    simp only [List.map_map]
    rw [← hes, List.map_map]
    rfl
  · intro e st' h
    cases hb : build docs with
    | error e0 =>
      simp only [Rag.index_documents, hb] at h
      exact (Prod.mk.injEq .. ▸ h).2.symm
    | ok es => simp [Rag.index_documents, hb] at h

/-- Witness for C7: indexing one document over a non-empty previous state
yields count 1 and only the new id; a failing build leaves the state
unchanged. -/
theorem rag_index_documents_replaces_claim_witness :
    Rag.document_count
      (Rag.index_documents Fixtures.cRagPrev [Fixtures.cUniDoc] Fixtures.cBuild).2 = 1
    ∧ (Rag.index_documents Fixtures.cRagPrev [Fixtures.cUniDoc] Fixtures.cBuild).2.index.map
        Prod.fst = ["id1"]
    ∧ (Rag.index_documents Fixtures.cRagPrev [Fixtures.cUniDoc] Fixtures.cBuildFail).2
        = Fixtures.cRagPrev := by
  have h := rag_index_documents_replaces_claim Fixtures.cRagPrev Fixtures.cRagPrev
    [Fixtures.cUniDoc] Fixtures.cBuild
  have hf := rag_index_documents_replaces_claim Fixtures.cRagPrev Fixtures.cRagPrev
    [Fixtures.cUniDoc] Fixtures.cBuildFail
  refine ⟨?_, ?_, ?_⟩
  · exact (h.1 () (Rag.index_documents Fixtures.cRagPrev [Fixtures.cUniDoc]
      Fixtures.cBuild).2 rfl).1
  · have := h.2.1 () (Rag.index_documents Fixtures.cRagPrev [Fixtures.cUniDoc]
      Fixtures.cBuild).2 [(Fixtures.cUniDoc, [1])] rfl rfl rfl
    simpa using this
  · exact hf.2.2 "embedding backend down"
      (Rag.index_documents Fixtures.cRagPrev [Fixtures.cUniDoc] Fixtures.cBuildFail).2 rfl

/-- C9: on every request where both versions succeed with the same resolved
address and the same provider-reported wei balance, the `balance` tool of
`services/blockchain.rs` and the earlier one of `blockchain_service.rs`
report the same balance content: the new tool's response embeds the legacy
tool's entire response verbatim as its wei figure. -/
theorem balance_tools_same_wei_claim (who : String) (addr bal : Nat)
    (disp ethFmt : Nat → String) :
    Mcp.services_balance_tool who (Except.ok addr) (fun _ => Except.ok bal)
        disp ethFmt
      = Except.ok (Mcp.services_balance_text who (disp addr) (ethFmt bal) bal)
    ∧ Mcp.legacy_balance_tool (Except.ok addr) (fun _ => Except.ok bal)
      = Mcp.RustOutcome.returns (Except.ok (Mcp.legacy_balance_text bal))
    ∧ Mcp.services_balance_text who (disp addr) (ethFmt bal) bal
      = ("ETH Balance Query:\nAccount: " ++ who ++ " (resolved to "
          ++ disp addr ++ ")\nBalance: " ++ ethFmt bal ++ " ETH (")
        ++ Mcp.legacy_balance_text bal ++ " wei)" :=
  ⟨rfl, rfl, rfl⟩

/-- C10: the `balance` tool of `blockchain_service.rs` panics instead of
returning an MCP error: a failing address resolution panics, a failing
`get_balance` panics, and no input produces an `Err` MCP value (every run
either panics or returns success content). -/
theorem legacy_balance_panics_claim :
    (∃ m, Mcp.legacy_balance_tool (Except.error "ens name not found")
        (fun _ => Except.ok 0) = Mcp.RustOutcome.panics m)
    ∧ (∃ m, Mcp.legacy_balance_tool (Except.ok 0)
        (fun _ => Except.error "rpc unavailable") = Mcp.RustOutcome.panics m)
    ∧ (∀ (r : Except String Nat) (g : Nat → Except String Nat),
        (∃ m, Mcp.legacy_balance_tool r g = Mcp.RustOutcome.panics m)
        ∨ (∃ bal, Mcp.legacy_balance_tool r g
            = Mcp.RustOutcome.returns (Except.ok bal))) := by
  refine ⟨⟨_, rfl⟩, ⟨_, rfl⟩, ?_⟩
  intro r g
  cases r with
  | error e => exact Or.inl ⟨_, rfl⟩
  | ok addr =>
    cases hg : g addr with
    | error e =>
      exact Or.inl ⟨"called `Result::unwrap()` on an `Err` value: " ++ e,
        by simp [Mcp.legacy_balance_tool, Mcp.unwrapResult, hg]⟩
    | ok bal =>
      exact Or.inr ⟨Nat.repr bal,
        by simp [Mcp.legacy_balance_tool, Mcp.unwrapResult, hg]⟩

/-! ## Digit-string lemmas for the send_eth amount computation -/

namespace Mcp

theorem digitsFoldFrom (l : List Char) :
    ∀ n : Nat, l.foldl (fun n c => n * 10 + (c.toNat - 48)) n
      = n * 10 ^ l.length + l.foldl (fun n c => n * 10 + (c.toNat - 48)) 0 := by
  induction l with
  | nil => intro n; simp
  | cons c t ih =>
    intro n
    simp only [List.foldl_cons, List.length_cons]
    rw [ih (n * 10 + (c.toNat - 48)), ih (0 * 10 + (c.toNat - 48))]
    ring

theorem digitsValL_append (l1 l2 : List Char) :
    digitsValL (l1 ++ l2) = digitsValL l1 * 10 ^ l2.length + digitsValL l2 := by
  show List.foldl (fun n c => n * 10 + (c.toNat - 48)) 0 (l1 ++ l2)
    = digitsValL l1 * 10 ^ l2.length + digitsValL l2
  rw [List.foldl_append]
  exact digitsFoldFrom l2 (digitsValL l1)

theorem digitsValL_zeros (n : Nat) :
    digitsValL (List.replicate n '0') = 0 := by
  induction n with
  | zero => rfl
  | succ k ih =>
    simp only [List.replicate_succ, digitsValL, List.foldl_cons]
    simpa [digitsValL] using ih

theorem removeDots_toList (s : String) :
    (removeDots s).toList = s.toList.filter (fun c => !(c == '.')) := rfl

theorem removeDots_digits (s : String)
    (h : ∀ c ∈ s.toList, c.isDigit) : removeDots s = s := by
  rcases s with ⟨l⟩
  show String.mk (l.filter (fun c => !(c == '.'))) = String.mk l
  apply congrArg String.mk
  apply List.filter_eq_self.mpr
  intro c hc
  have hd := h c hc
  have hne : c ≠ '.' := by
    intro hcd
    subst hcd
    exact absurd hd (by decide)
  simpa using hne

theorem string_toList_append (a b : String) :
    (a ++ b).toList = a.toList ++ b.toList := by
  rcases a with ⟨la⟩
  rcases b with ⟨lb⟩
  rfl

theorem removeDots_append_dot (a b : String) :
    removeDots (a ++ "." ++ b) = removeDots a ++ removeDots b := by
  apply String.ext
  show ((a ++ "." ++ b).toList.filter (fun c => !(c == '.')))
    = (removeDots a).toList ++ (removeDots b).toList
  rw [string_toList_append, string_toList_append]
  simp only [List.filter_append, removeDots_toList]
  have hdot : (String.toList ".").filter (fun c => !(c == '.')) = [] := rfl
  rw [hdot]
  simp

end Mcp

/-- C5: for every amount string made of decimal digits and dots, `send_eth`
computes the wei value by deleting the dots and appending eighteen zero
digits before the 256-bit decimal parse: the parsed value is the dot-free
digit value times `10^18`; a digits-only amount `n` yields `n * 10^18`; and
an amount with `d` fractional digits yields `(int * 10^d + frac) * 10^18`,
which is `10^d` times the amount's numeric value times `10^18`. -/
theorem send_eth_amount_wei_claim (amount : String)
    (hchars : ∀ c ∈ amount.toList, c.isDigit ∨ c = '.')
    (hbound : Mcp.digitsValL (Mcp.removeDots amount).toList * 10 ^ 18 < 2 ^ 256) :
    Mcp.send_eth_amount_wei amount
      = some (Mcp.digitsValL (Mcp.removeDots amount).toList * 10 ^ 18)
    ∧ ((∀ c ∈ amount.toList, c.isDigit) →
        Mcp.send_eth_amount_wei amount
          = some (Mcp.digitsValL amount.toList * 10 ^ 18))
    ∧ (∀ a b : String, amount = a ++ "." ++ b →
        (∀ c ∈ a.toList, c.isDigit) → (∀ c ∈ b.toList, c.isDigit) →
        Mcp.send_eth_amount_wei amount
          = some ((Mcp.digitsValL a.toList * 10 ^ b.length
              + Mcp.digitsValL b.toList) * 10 ^ 18))
    ∧ (∀ (x y d : Nat),
        ((x * 10 ^ d + y : Nat) : ℚ) * 10 ^ 18
          = 10 ^ d * (((x : ℚ) + (y : ℚ) / 10 ^ d) * 10 ^ 18)) := by
  have hdig : ∀ c ∈ (Mcp.removeDots amount).toList, c.isDigit := by
    intro c hc
    rw [Mcp.removeDots_toList] at hc
    rw [List.mem_filter] at hc
    obtain ⟨hmem, hne⟩ := hc
    rcases hchars c hmem with h | h
    · exact h
    · subst h; simp at hne
  have happ : (Mcp.removeDots amount ++ "000000000000000000").toList
      = (Mcp.removeDots amount).toList ++ List.replicate 18 '0' := by
    rw [Mcp.string_toList_append]
    rfl
  have hmain : Mcp.send_eth_amount_wei amount
      = some (Mcp.digitsValL (Mcp.removeDots amount).toList * 10 ^ 18) := by
    unfold Mcp.send_eth_amount_wei Mcp.parseU256Dec
    rw [happ]
    have hne : (Mcp.removeDots amount).toList ++ List.replicate 18 '0' ≠ [] := by
      simp
    have hall : ((Mcp.removeDots amount).toList ++ List.replicate 18 '0').all
        Char.isDigit = true := by
      rw [List.all_append]
      refine Bool.and_eq_true_iff.mpr ⟨?_, by decide⟩
      rw [List.all_eq_true]
      exact fun c hc => hdig c hc
    rw [if_pos ⟨hne, hall⟩]
    have hval : Mcp.digitsValL
        ((Mcp.removeDots amount).toList ++ List.replicate 18 '0')
        = Mcp.digitsValL (Mcp.removeDots amount).toList * 10 ^ 18 := by
      rw [Mcp.digitsValL_append, Mcp.digitsValL_zeros, List.length_replicate]
      ring
    rw [hval, if_pos hbound]
  refine ⟨hmain, ?_, ?_, ?_⟩
  · intro hall
    rw [hmain, Mcp.removeDots_digits amount hall]
  · intro a b hab ha hb
    rw [hmain]
    subst hab
    rw [Mcp.removeDots_append_dot, Mcp.removeDots_digits a ha,
      Mcp.removeDots_digits b hb, Mcp.string_toList_append,
      Mcp.digitsValL_append]
    rcases b with ⟨lb⟩
    rfl
  · intro x y d
    have hd : ((10 : ℚ) ^ d) ≠ 0 := by positivity
    field_simp

/-- Witness for C5 at the amount string `"1.5"`, which yields
`15 * 10^18` wei. -/
theorem send_eth_amount_wei_claim_witness :
    Mcp.send_eth_amount_wei "1.5"
      = some (Mcp.digitsValL (Mcp.removeDots "1.5").toList * 10 ^ 18)
    ∧ Mcp.digitsValL (Mcp.removeDots "1.5").toList * 10 ^ 18 = 15 * 10 ^ 18 :=
  ⟨(send_eth_amount_wei_claim "1.5" (by decide) (by decide)).1, by decide⟩

/-! ## Lemmas for recipient-address validation -/

namespace Mcp

theorem tryKnownAccounts_none (svc : ServiceEnv) (lower : String) :
    ∀ l : List (String × Nat), (∀ p ∈ l, lower ≠ p.1) →
      tryKnownAccounts svc lower l = none := by
  intro l
  induction l with
  | nil => intro _; rfl
  | cons p rest ih =>
    intro h
    obtain ⟨name, idx⟩ := p
    have hne : lower ≠ name := h (name, idx) (List.mem_cons_self _ _)
    simpa [tryKnownAccounts, hne]
      using ih (fun q hq => h q (List.mem_cons_of_mem _ hq))

theorem tryKnownAccounts_cons_ne (svc : ServiceEnv) (lower name : String)
    (idx : Nat) (rest : List (String × Nat)) (h : lower ≠ name) :
    tryKnownAccounts svc lower ((name, idx) :: rest)
      = tryKnownAccounts svc lower rest := by
  simp [tryKnownAccounts, h]

theorem tryKnownAccounts_cons_hit (svc : ServiceEnv) (lower name : String)
    (idx : Nat) (rest : List (String × Nat)) (h : lower = name)
    (acc : AccountInfo) (hacc : svc.anvil_accounts.get? idx = some acc)
    (a : Nat) (hpa : addressFromStr acc.address = some a) :
    tryKnownAccounts svc lower ((name, idx) :: rest)
      = some ⟨acc.address, a, "Anvil Account " ++ toString idx⟩ := by
  rw [List.get?_eq_getElem?] at hacc
  simp [tryKnownAccounts, h, hacc, hpa]

end Mcp

/-- C8: `validate_recipient_address` accepts exactly four input shapes,
tried in order on the trimmed input: (1) a parseable 20-byte hex address
succeeds as "Ethereum Address"; (2) an input ending in `.eth` or containing
a dot succeeds only when ENS resolution succeeds and otherwise yields an
invalid-params error without falling through; (3) `alice` and `bob`,
case-insensitively, resolve to the service's account-0 and account-1
addresses; (4) `account0`..`account9`, case-insensitively, resolve to the
corresponding anvil account (when that account is present with a parseable
address); every other input yields an invalid-params error. -/
theorem validate_recipient_address_claim (svc : Mcp.ServiceEnv)
    (resolve : String → Except String Nat) (input : String) :
    (∀ a, Mcp.addressFromStr (StrM.trimS input) = some a →
        Mcp.validate_recipient_address svc resolve input
          = Except.ok ⟨StrM.trimS input, a, "Ethereum Address"⟩)
    ∧ (Mcp.addressFromStr (StrM.trimS input) = none →
        (StrM.endsWithS (StrM.trimS input) ".eth" = true
          ∨ StrM.containsChar (StrM.trimS input) '.' = true) →
        (∀ a, resolve (StrM.trimS input) = Except.ok a →
            Mcp.validate_recipient_address svc resolve input
              = Except.ok ⟨StrM.trimS input, a, "ENS Name (resolved)"⟩)
        ∧ (∀ e, resolve (StrM.trimS input) = Except.error e →
            ∃ msg, Mcp.validate_recipient_address svc resolve input
              = Except.error (Mcp.McpErrorModel.invalid_params msg)))
    ∧ (Mcp.addressFromStr (StrM.trimS input) = none →
        ¬ (StrM.endsWithS (StrM.trimS input) ".eth" = true
          ∨ StrM.containsChar (StrM.trimS input) '.' = true) →
        StrM.toLowerS (StrM.trimS input) = "alice" →
        Mcp.validate_recipient_address svc resolve input
          = Except.ok ⟨Mcp.fmtAddrDebug svc.alice_address, svc.alice_address,
              "Alice (Account 0 - Default Sender)"⟩)
    ∧ (Mcp.addressFromStr (StrM.trimS input) = none →
        ¬ (StrM.endsWithS (StrM.trimS input) ".eth" = true
          ∨ StrM.containsChar (StrM.trimS input) '.' = true) →
        StrM.toLowerS (StrM.trimS input) = "bob" →
        Mcp.validate_recipient_address svc resolve input
          = Except.ok ⟨Mcp.fmtAddrDebug svc.bob_address, svc.bob_address,
              "Bob (Account 1 - Default Recipient)"⟩)
    ∧ (∀ (n : Nat), Mcp.addressFromStr (StrM.trimS input) = none →
        ¬ (StrM.endsWithS (StrM.trimS input) ".eth" = true
          ∨ StrM.containsChar (StrM.trimS input) '.' = true) →
        n < 10 →
        StrM.toLowerS (StrM.trimS input) = "account" ++ toString n →
        ∀ acc, svc.anvil_accounts.get? n = some acc →
        ∀ a, Mcp.addressFromStr acc.address = some a →
        Mcp.validate_recipient_address svc resolve input
          = Except.ok ⟨acc.address, a, "Anvil Account " ++ toString n⟩)
    ∧ (Mcp.addressFromStr (StrM.trimS input) = none →
        ¬ (StrM.endsWithS (StrM.trimS input) ".eth" = true
          ∨ StrM.containsChar (StrM.trimS input) '.' = true) →
        StrM.toLowerS (StrM.trimS input) ∉
          (["alice", "bob", "account0", "account1", "account2", "account3",
            "account4", "account5", "account6", "account7", "account8",
            "account9"] : List String) →
        ∃ msg, Mcp.validate_recipient_address svc resolve input
          = Except.error (Mcp.McpErrorModel.invalid_params msg)) := by
  refine ⟨?_, ?_, ?_, ?_, ?_, ?_⟩
  · intro a ha
    simp [Mcp.validate_recipient_address, ha]
  · intro hn he
    constructor
    · intro a hr
      simp only [Mcp.validate_recipient_address, hn]
      rw [if_pos he, hr]
    · intro e hr
      simp only [Mcp.validate_recipient_address, hn]
      rw [if_pos he, hr]
      exact ⟨_, rfl⟩
  · intro hn hno hl
    simp only [Mcp.validate_recipient_address, hn]
    rw [if_neg hno, hl, if_pos rfl]
  · intro hn hno hl
    simp only [Mcp.validate_recipient_address, hn]
    rw [if_neg hno, hl]
    rw [if_neg (by decide), if_pos rfl]
  · intro n hn hno hn10 hl acc hacc a hpa
    interval_cases n <;>
    · simp only [Mcp.validate_recipient_address, hn]
      rw [if_neg hno]
      rw [if_neg (show ¬ StrM.toLowerS (StrM.trimS input) = "alice" from by
        rw [hl]; decide)]
      rw [if_neg (show ¬ StrM.toLowerS (StrM.trimS input) = "bob" from by
        rw [hl]; decide)]
      rw [hl]
      simp only [Mcp.knownAccounts]
      repeat rw [Mcp.tryKnownAccounts_cons_ne _ _ _ _ _ (by decide)]
      rw [Mcp.tryKnownAccounts_cons_hit _ _ _ _ _ (by decide) acc hacc a hpa]
  · intro hn hno hnot
    simp only [List.mem_cons, List.not_mem_nil, or_false, not_or] at hnot
    obtain ⟨h1, h2, h3, h4, h5, h6, h7, h8, h9, h10, h11, h12⟩ := hnot
    have hall : ∀ p ∈ Mcp.knownAccounts,
        StrM.toLowerS (StrM.trimS input) ≠ p.1 := by
      intro p hp
      fin_cases hp <;> simp_all
    have hnone := Mcp.tryKnownAccounts_none svc _ Mcp.knownAccounts hall
    simp only [Mcp.validate_recipient_address, hn]
    rw [if_neg hno, if_neg h1, if_neg h2, hnone]
    exact ⟨_, rfl⟩

/-- Witness for C8 at concrete inputs: a hex address, `" Alice "`, an
unresolvable dotted name, `"ACCOUNT0"`, and a garbage string, against a
concrete service environment. -/
theorem validate_recipient_address_claim_witness :
    Mcp.validate_recipient_address Fixtures.cSvc Fixtures.cResolve
      "0xaaaaaaaaaaaaaaaaaaaaaaaaaaaaaaaaaaaaaaaa"
      = Except.ok ⟨"0xaaaaaaaaaaaaaaaaaaaaaaaaaaaaaaaaaaaaaaaa",
          974334424887268612135789888477522013103955028650, "Ethereum Address"⟩
    ∧ (∃ msg, Mcp.validate_recipient_address Fixtures.cSvc Fixtures.cResolve
        "vitalik.eth" = Except.error (Mcp.McpErrorModel.invalid_params msg))
    ∧ Mcp.validate_recipient_address Fixtures.cSvc Fixtures.cResolve " Alice "
      = Except.ok ⟨Mcp.fmtAddrDebug Fixtures.cSvc.alice_address,
          Fixtures.cSvc.alice_address, "Alice (Account 0 - Default Sender)"⟩
    ∧ Mcp.validate_recipient_address Fixtures.cSvc Fixtures.cResolve "ACCOUNT0"
      = Except.ok ⟨"0xaaaaaaaaaaaaaaaaaaaaaaaaaaaaaaaaaaaaaaaa",
          974334424887268612135789888477522013103955028650, "Anvil Account 0"⟩
    ∧ (∃ msg, Mcp.validate_recipient_address Fixtures.cSvc Fixtures.cResolve
        "bogus" = Except.error (Mcp.McpErrorModel.invalid_params msg)) := by
  have h1 := validate_recipient_address_claim Fixtures.cSvc Fixtures.cResolve
    "0xaaaaaaaaaaaaaaaaaaaaaaaaaaaaaaaaaaaaaaaa"
  have h2 := validate_recipient_address_claim Fixtures.cSvc Fixtures.cResolve
    "vitalik.eth"
  have h3 := validate_recipient_address_claim Fixtures.cSvc Fixtures.cResolve
    " Alice "
  have h4 := validate_recipient_address_claim Fixtures.cSvc Fixtures.cResolve
    "ACCOUNT0"
  have h5 := validate_recipient_address_claim Fixtures.cSvc Fixtures.cResolve
    "bogus"
  refine ⟨?_, ?_, ?_, ?_, ?_⟩
  · exact h1.1 974334424887268612135789888477522013103955028650 (by decide)
  · exact (h2.2.1 (by decide) (by decide)).2 "name not found" rfl
  · exact h3.2.2.1 (by decide) (by decide) (by decide)
  · exact h4.2.2.2.2.1 0 (by decide) (by decide) (by decide) (by decide)
      ⟨0, "0xaaaaaaaaaaaaaaaaaaaaaaaaaaaaaaaaaaaaaaaa", none⟩ rfl
      974334424887268612135789888477522013103955028650 (by decide)
  · exact h5.2.2.2.2.2 (by decide) (by decide) (by decide)
